import Mathlib

/-!
Shallow embedding of the `plp_bookstore.books` scripts
(`insert_books.js` seeder and `queries.js` query runner).

The collection is modelled as a `List Book` (list order = the
datastore's natural order).  Prices are exact rationals; a document's
`price` field is `Option ℚ` so that the treatment of a missing
`price` (e.g. by the `$avg` accumulator) is representable.  Each
query, update and aggregation of the scripts is translated to a pure
function on the collection.  Sorting (`.sort(...)` and `$sort`) is
modelled by the stable comparison sort `List.insertionSort`; `$group`
emits one group per distinct key, in first-seen key order.
-/

namespace PlpBookstore

/-- A document of the `books` collection, per the seeder's fixture shape. -/
structure Book where
  title : String
  author : String
  genre : String
  published_year : Nat
  price : Option ℚ
  in_stock : Bool
  pages : Nat
  publisher : String
deriving DecidableEq, Repr

/-- The 12-entry fixture `sampleBooks` of `insert_books.js`. -/
def sampleBooks : List Book :=
  [⟨"The Silent Orchard", "Ava Harper", "Fiction", 2018, some 14.99, true, 320, "Harbor Press"⟩,
   ⟨"Learning MongoDB", "Samuel Reed", "Non-Fiction", 2021, some 39.5, true, 280, "TechBooks"⟩,
   ⟨"Galaxies Apart", "Maya Chen", "Science Fiction", 2012, some 12.0, false, 410, "Orbit House"⟩,
   ⟨"The Last Alchemist", "Ava Harper", "Fantasy", 2005, some 9.99, true, 450, "Mythic Press"⟩,
   ⟨"Mysteries of Grey Manor", "Derek Cole", "Mystery", 2016, some 11.5, false, 370, "Detective House"⟩,
   ⟨"A Short History of Timekeeping", "Nina Patel", "History", 1998, some 24.0, true, 220, "Chronicle Pub"⟩,
   ⟨"Romance on 5th Avenue", "Liam Brooks", "Romance", 2019, some 7.99, true, 300, "LoveReads"⟩,
   ⟨"Data Patterns in the Wild", "Samuel Reed", "Non-Fiction", 2015, some 45.0, false, 500, "TechBooks"⟩,
   ⟨"Echoes of Tomorrow", "Maya Chen", "Science Fiction", 2020, some 18.75, true, 360, "Orbit House"⟩,
   ⟨"Memoirs of a Voyager", "Isabella Stone", "Biography", 2002, some 16.0, true, 410, "LifeStory Press"⟩,
   ⟨"Practical Indexing", "Samuel Reed", "Non-Fiction", 2010, some 29.99, true, 200, "TechBooks"⟩,
   ⟨"Shadows Under the Ivy", "Derek Cole", "Mystery", 2022, some 13.5, true, 330, "Detective House"⟩]

/-- Projection `{ title: 1, published_year: 1, _id: 0 }`. -/
structure TY where
  title : String
  published_year : Nat
deriving DecidableEq, Repr

/-- Projection `{ title: 1, price: 1, _id: 0 }`. -/
structure TP where
  title : String
  price : Option ℚ
deriving DecidableEq, Repr

/-- Projection `{ title: 1, author: 1, _id: 0 }`. -/
structure TA where
  title : String
  author : String
deriving DecidableEq, Repr

/-- Query `findPublishedAfter(year)`: filter
`{ published_year: { $gt: year } }` with projection
`{ title: 1, published_year: 1, _id: 0 }`. -/
def findPublishedAfter (col : List Book) (year : Nat) : List TY :=
  (col.filter fun b => decide (year < b.published_year)).map fun b =>
    ⟨b.title, b.published_year⟩

/-- Update `updatePriceByTitle(title, newPrice)`: `findOneAndUpdate({ title },
{ $set: { price: newPrice } }, { returnDocument: 'after' })`.  Updates
the first document whose `title` matches and returns the collection
after the update together with the updated document (the driver
result's `value`), which is `none` when no document matched. -/
def updatePriceByTitle : List Book → String → ℚ → List Book × Option Book
  | [], _, _ => ([], none)
  | b :: bs, title, newPrice =>
    if b.title == title then
      ({ b with price := some newPrice } :: bs, some { b with price := some newPrice })
    else
      let r := updatePriceByTitle bs title newPrice
      (b :: r.1, r.2)

/-- BSON comparison of an optional numeric field: a missing value
sorts before every number (MongoDB's `missing`/`null` < `number`). -/
def priceLE : Option ℚ → Option ℚ → Bool
  | none, _ => true
  | some _, none => false
  | some a, some b => decide (a ≤ b)

/-- Order used by `.sort({ price: 1 })`. -/
def priceAsc (a b : Book) : Prop := priceLE a.price b.price = true

/-- Order used by `.sort({ price: -1 })`. -/
def priceDesc (a b : Book) : Prop := priceLE b.price a.price = true

/-- Order used by `.sort({ title: 1 })`: codepoint-lexicographic
comparison of the title strings (MongoDB simple binary collation). -/
def titleAsc (a b : Book) : Prop := a.title.data ≤ b.title.data

instance : DecidableRel priceAsc :=
  fun a b => inferInstanceAs (Decidable (priceLE a.price b.price = true))

instance : DecidableRel priceDesc :=
  fun a b => inferInstanceAs (Decidable (priceLE b.price a.price = true))

instance : DecidableRel titleAsc :=
  fun a b => inferInstanceAs (Decidable (a.title.data ≤ b.title.data))

instance : IsTotal Book priceAsc :=
  ⟨fun a b => by
    show priceLE a.price b.price = true ∨ priceLE b.price a.price = true
    cases a.price <;> cases b.price <;> simp [priceLE]
    exact le_total _ _⟩

instance : IsTrans Book priceAsc :=
  ⟨fun a b c => by
    show priceLE a.price b.price = true → priceLE b.price c.price = true →
      priceLE a.price c.price = true
    cases a.price <;> cases b.price <;> cases c.price <;> simp [priceLE]
    exact fun h1 h2 => le_trans h1 h2⟩

instance : IsTotal Book priceDesc :=
  ⟨fun a b => by
    show priceLE b.price a.price = true ∨ priceLE a.price b.price = true
    cases a.price <;> cases b.price <;> simp [priceLE]
    exact le_total _ _⟩

instance : IsTrans Book priceDesc :=
  ⟨fun a b c => by
    show priceLE b.price a.price = true → priceLE c.price b.price = true →
      priceLE c.price a.price = true
    cases a.price <;> cases b.price <;> cases c.price <;> simp [priceLE]
    exact fun h1 h2 => le_trans h2 h1⟩

instance : IsTotal Book titleAsc := ⟨fun a b => le_total a.title.data b.title.data⟩

instance : IsTrans Book titleAsc := ⟨fun _ _ _ h1 h2 => le_trans h1 h2⟩

/-- Scan `find({}, { projection: { title: 1, price: 1, _id: 0 } }).sort({ price: 1 })`. -/
def sortByPriceAsc (col : List Book) : List TP :=
  (col.insertionSort priceAsc).map fun b => ⟨b.title, b.price⟩

/-- Scan `find({}, { projection: { title: 1, price: 1, _id: 0 } }).sort({ price: -1 })`. -/
def sortByPriceDesc (col : List Book) : List TP :=
  (col.insertionSort priceDesc).map fun b => ⟨b.title, b.price⟩

/-- The `pageSize` constant of `queries.js`. -/
def pageSize : Nat := 5

/-- Pagination `getPage(pageNumber)`: the title-sorted unrestricted scan with
`skip((pageNumber - 1) * pageSize)` and `limit(pageSize)`, projected
to `{ title: 1, author: 1, _id: 0 }`.  The driver rejects a negative
skip value, so a page number below 1 produces an error, not a page. -/
def getPage (col : List Book) (pageNumber : Int) : Except String (List TA) :=
  let skip : Int := (pageNumber - 1) * (pageSize : Int)
  if skip < 0 then Except.error "Skip value must be non-negative"
  else
    Except.ok ((((col.insertionSort titleAsc).drop skip.toNat).take pageSize).map
      fun b => ⟨b.title, b.author⟩)

/-- The distinct values of a key list, in first-seen order: the order
in which `$group` is modelled to emit its groups. -/
def firstSeenKeys {κ : Type} [DecidableEq κ] (l : List κ) : List κ :=
  (l.reverse.dedup).reverse

/-- The `$avg` accumulator: the arithmetic mean of the values that are
present; documents with a missing value contribute nothing, and a
group with no present value gets `null`. -/
def mongoAvg (l : List (Option ℚ)) : Option ℚ :=
  match l.filterMap id with
  | [] => none
  | v :: vs => some ((v :: vs).sum / (v :: vs).length)

/-- Output row of the average-price-by-genre pipeline:
`{ _id: '$genre', averagePrice: { $avg: '$price' }, count: { $sum: 1 } }`. -/
structure GenreGroup where
  _id : String
  averagePrice : Option ℚ
  count : Nat
deriving DecidableEq, Repr

/-- The `$group` stage of the average-price-by-genre pipeline. -/
def genreGroups (col : List Book) : List GenreGroup :=
  (firstSeenKeys (col.map Book.genre)).map fun g =>
    ⟨g, mongoAvg ((col.filter fun b => decide (b.genre = g)).map Book.price),
      col.countP fun b => decide (b.genre = g)⟩

/-- Order used by `$sort: { averagePrice: -1 }`. -/
def avgDesc (x y : GenreGroup) : Prop := priceLE y.averagePrice x.averagePrice = true

instance : DecidableRel avgDesc :=
  fun x y => inferInstanceAs (Decidable (priceLE y.averagePrice x.averagePrice = true))

instance : IsTotal GenreGroup avgDesc :=
  ⟨fun a b => by
    show priceLE b.averagePrice a.averagePrice = true ∨
      priceLE a.averagePrice b.averagePrice = true
    cases a.averagePrice <;> cases b.averagePrice <;> simp [priceLE]
    exact le_total _ _⟩

instance : IsTrans GenreGroup avgDesc :=
  ⟨fun a b c => by
    show priceLE b.averagePrice a.averagePrice = true →
      priceLE c.averagePrice b.averagePrice = true →
      priceLE c.averagePrice a.averagePrice = true
    cases a.averagePrice <;> cases b.averagePrice <;> cases c.averagePrice <;> simp [priceLE]
    exact fun h1 h2 => le_trans h2 h1⟩

/-- Pipeline `avgPriceByGenre`: group by genre with `$avg` of price
and a count, then `$sort: { averagePrice: -1 }`. -/
def avgPriceByGenre (col : List Book) : List GenreGroup :=
  (genreGroups col).insertionSort avgDesc

/-- Output row of the top-author pipeline:
`{ _id: '$author', count: { $sum: 1 } }`. -/
structure AuthorGroup where
  _id : String
  count : Nat
deriving DecidableEq, Repr

/-- The `$group` stage of the top-author pipeline. -/
def authorGroups (col : List Book) : List AuthorGroup :=
  (firstSeenKeys (col.map Book.author)).map fun a =>
    ⟨a, col.countP fun b => decide (b.author = a)⟩

/-- Order used by `$sort: { count: -1 }`. -/
def countDesc (x y : AuthorGroup) : Prop := y.count ≤ x.count

instance : DecidableRel countDesc :=
  fun x y => inferInstanceAs (Decidable (y.count ≤ x.count))

instance : IsTotal AuthorGroup countDesc := ⟨fun a b => le_total b.count a.count⟩

instance : IsTrans AuthorGroup countDesc := ⟨fun _ _ _ h1 h2 => le_trans h2 h1⟩

/-- Pipeline `topAuthor`: group by author with a count,
`$sort: { count: -1 }` (stable, so first-seen order breaks ties),
then `$limit: 1`. -/
def topAuthor (col : List Book) : List AuthorGroup :=
  ((authorGroups col).insertionSort countDesc).take 1

/-- The `$addFields` stage of the decade pipeline:
`{ decade: { $multiply: [{ $floor: { $divide: ['$published_year', 10] } }, 10] } }`. -/
def decadeOf (b : Book) : Nat := b.published_year / 10 * 10

/-- Output row of the decade-histogram pipeline:
`{ _id: '$decade', count: { $sum: 1 }, titles: { $push: '$title' } }`. -/
structure DecadeGroup where
  _id : Nat
  count : Nat
  titles : List String
deriving DecidableEq, Repr

/-- The `$group` stage of the decade-histogram pipeline. -/
def decadeGroups (col : List Book) : List DecadeGroup :=
  (firstSeenKeys (col.map decadeOf)).map fun d =>
    ⟨d, col.countP fun b => decide (decadeOf b = d),
      (col.filter fun b => decide (decadeOf b = d)).map Book.title⟩

/-- Order used by `$sort: { _id: 1 }` on decade groups. -/
def decadeAsc (x y : DecadeGroup) : Prop := x._id ≤ y._id

instance : DecidableRel decadeAsc :=
  fun x y => inferInstanceAs (Decidable (x._id ≤ y._id))

instance : IsTotal DecadeGroup decadeAsc := ⟨fun a b => le_total a._id b._id⟩

instance : IsTrans DecadeGroup decadeAsc := ⟨fun _ _ _ h1 h2 => le_trans h1 h2⟩

/-- Pipeline `byDecade`: derive the decade, group by it with a count
and the list of titles, then `$sort: { _id: 1 }`. -/
def byDecade (col : List Book) : List DecadeGroup :=
  (decadeGroups col).insertionSort decadeAsc

/-- Batch `insertMany(docs, { ordered: true })`: documents are inserted one
by one in list order and insertion stops at the first document the
datastore rejects (`ok` is the acceptance predicate).  Returns the
inserted documents and `insertedCount`. -/
def insertManyOrdered (ok : Book → Bool) : List Book → List Book × Nat
  | [] => ([], 0)
  | b :: bs =>
    if ok b then
      let r := insertManyOrdered ok bs
      (b :: r.1, r.2 + 1)
    else ([], 0)

/-- One run of the seeder `main` against a collection in state `col`:
`insertMany(sampleBooks, { ordered: true })`.  The target collection
has no uniqueness constraint, so the datastore accepts every
document.  Returns the new collection state and `insertedCount`. -/
def seederRun (col : List Book) : List Book × Nat :=
  let r := insertManyOrdered (fun _ => true) sampleBooks
  (col ++ r.1, r.2)

/-- Observable console/resource events of one script run. -/
inductive Event where
  | resultPrinted
  | errorLogged
  | connectionClosed
deriving DecidableEq, Repr

/-- Control flow of `run()` in `queries.js`: a `try` block (connect,
then the query battery with its printing), a `catch` block that logs
any error to the console, and a `finally` block that closes the
connection.  `connectOk` tells whether `client.connect()` succeeds and
`opsOk` whether the operation sequence runs to completion. -/
def runTrace (connectOk opsOk : Bool) : List Event :=
  (if connectOk then
    if opsOk then [Event.resultPrinted] else [Event.resultPrinted, Event.errorLogged]
  else [Event.errorLogged]) ++ [Event.connectionClosed]

/-- Control flow of `main()` in `insert_books.js`: a `try` block
(connect, then `insertMany` with its printing), a `catch` block that
logs any error, and a `finally` block that closes the connection. -/
def mainTrace (connectOk insertOk : Bool) : List Event :=
  (if connectOk then
    if insertOk then [Event.resultPrinted] else [Event.resultPrinted, Event.errorLogged]
  else [Event.errorLogged]) ++ [Event.connectionClosed]

/-! ### Order-relation facts for the sort keys -/

theorem priceLE_refl (a : Option ℚ) : priceLE a a = true := by
  cases a <;> simp [priceLE]

/-! ### Generic lemmas: stable sorting, first-seen keys, counting -/

/-- Stability of the modelled sort, phrased through `filter`: the
documents satisfying a sort-key-equivalent predicate appear in the
sorted output in exactly their collection order. -/
theorem filter_insertionSort {α : Type} (r : α → α → Prop) [DecidableRel r] (p : α → Bool)
    (hp : ∀ x y, p x = true → p y = true → r x y) (l : List α) :
    (l.insertionSort r).filter p = l.filter p := by
  have hpw : (l.filter p).Pairwise r :=
    List.pairwise_of_forall_mem_list fun a ha b hb =>
      hp a b (List.mem_filter.mp ha).2 (List.mem_filter.mp hb).2
  have hsub : (l.filter p).Sublist (l.insertionSort r) :=
    List.sublist_insertionSort hpw (List.filter_sublist l)
  have hsub2 : ((l.filter p).filter p).Sublist ((l.insertionSort r).filter p) :=
    List.Sublist.filter p hsub
  have heq : (l.filter p).filter p = l.filter p :=
    List.filter_eq_self.mpr fun a ha => (List.mem_filter.mp ha).2
  rw [heq] at hsub2
  have hperm : ((l.insertionSort r).filter p).Perm (l.filter p) :=
    (List.perm_insertionSort r l).filter p
  exact (hsub2.eq_of_length hperm.length_eq.symm).symm

theorem mem_firstSeenKeys {κ : Type} [DecidableEq κ] {a : κ} {l : List κ} :
    a ∈ firstSeenKeys l ↔ a ∈ l := by
  simp [firstSeenKeys, List.mem_dedup]

theorem nodup_firstSeenKeys {κ : Type} [DecidableEq κ] (l : List κ) :
    (firstSeenKeys l).Nodup := by
  rw [firstSeenKeys, List.nodup_reverse]
  exact List.nodup_dedup _

theorem countP_decide_eq_one_of_nodup {κ : Type} [DecidableEq κ] {l : List κ} (h : l.Nodup)
    {a : κ} (ha : a ∈ l) : (l.countP fun x => decide (x = a)) = 1 := by
  induction l with
  | nil => cases ha
  | cons b t ih =>
    rcases List.mem_cons.mp ha with heq | hat
    · subst heq
      have h0 : (t.countP fun x => decide (x = a)) = 0 :=
        List.countP_eq_zero.mpr fun x hx => by
          simp only [decide_eq_true_eq]
          rintro rfl
          exact (List.nodup_cons.mp h).1 hx
      simp [List.countP_cons, h0]
    · have hba : ¬(b = a) := by
        rintro rfl
        exact (List.nodup_cons.mp h).1 hat
      simp [List.countP_cons, ih (List.nodup_cons.mp h).2 hat, hba]

/-- Summing the per-key multiplicities over any duplicate-free list of
keys that covers a list accounts for every element of that list. -/
theorem sum_countP_keys {κ : Type} [DecidableEq κ] (ks : List κ) :
    ∀ l : List κ, ks.Nodup → (∀ k ∈ l, k ∈ ks) →
      ((ks.map fun k => l.countP fun x => decide (x = k)).sum) = l.length := by
  induction ks with
  | nil =>
    intro l _ hmem
    cases l with
    | nil => simp
    | cons x t => exact absurd (hmem x (List.mem_cons_self x t)) (List.not_mem_nil x)
  | cons k₀ ks' ih =>
    intro l hnd hmem
    obtain ⟨hk₀, hnd'⟩ := List.nodup_cons.mp hnd
    have hsplit : ∀ k ∈ ks', (l.countP fun x => decide (x = k)) =
        ((l.filter fun x => decide (x ≠ k₀)).countP fun x => decide (x = k)) := by
      intro k hk
      rw [List.countP_filter]
      apply congrFun (congrArg _ _) l
      funext x
      by_cases hxk : x = k₀
      · subst hxk
        have : ¬(x = k) := by rintro rfl; exact hk₀ hk
        simp [this]
      · simp [hxk]
    have hrec := ih (l.filter fun x => decide (x ≠ k₀)) hnd' fun k hkmem => by
      have h1 := List.mem_filter.mp hkmem
      have h2 := hmem k h1.1
      rcases List.mem_cons.mp h2 with rfl | hk
      · simp at h1
      · exact hk
    calc ((k₀ :: ks').map fun k => l.countP fun x => decide (x = k)).sum
        = (l.countP fun x => decide (x = k₀)) +
          (ks'.map fun k => l.countP fun x => decide (x = k)).sum := by
          simp
      _ = (l.countP fun x => decide (x = k₀)) +
          (ks'.map fun k =>
            (l.filter fun x => decide (x ≠ k₀)).countP fun x => decide (x = k)).sum := by
          rw [List.map_congr_left hsplit]
      _ = (l.countP fun x => decide (x = k₀)) +
          (l.filter fun x => decide (x ≠ k₀)).length := by rw [hrec]
      _ = l.length := by
          rw [← List.countP_eq_length_filter]
          have := (List.length_eq_countP_add_countP (p := fun x => decide (x = k₀)) l).symm
          simpa using this

theorem find?_eq_head?_filter {α : Type} (p : α → Bool) (l : List α) :
    l.find? p = (l.filter p).head? := by
  induction l with
  | nil => rfl
  | cons a t ih =>
    by_cases h : p a
    · rw [List.find?_cons_of_pos _ h, List.filter_cons, if_pos h]
      rfl
    · rw [List.find?_cons_of_neg _ h, List.filter_cons, if_neg h]
      exact ih

/-! ### Claim theorems -/

/-- C1: `updatePriceByTitle(title, price)` sets the price field of the
first record whose title equals the given title exactly and returns
that record's post-update state; if no record has that title, it
returns `none` and leaves the collection unchanged, never creating a
record (the collection's size is always preserved). -/
theorem updatePriceByTitle_spec (col : List Book) (t : String) (p : ℚ) :
    (updatePriceByTitle col t p).1.length = col.length ∧
    ((∀ b ∈ col, b.title ≠ t) → updatePriceByTitle col t p = (col, none)) ∧
    (∀ pre mid post, col = pre ++ mid :: post → (∀ b ∈ pre, b.title ≠ t) → mid.title = t →
      updatePriceByTitle col t p =
        (pre ++ { mid with price := some p } :: post, some { mid with price := some p })) := by
  refine ⟨?_, ?_, ?_⟩
  · induction col with
    | nil => rfl
    | cons b bs ih =>
      by_cases h : (b.title == t) = true
      · simp [updatePriceByTitle, h]
      · simp [updatePriceByTitle, h, ih]
  · induction col with
    | nil => intro _; rfl
    | cons b bs ih =>
      intro hall
      have hb : ¬(b.title == t) = true := by
        simpa using hall b (List.mem_cons_self b bs)
      simp [updatePriceByTitle, hb, ih fun x hx => hall x (List.mem_cons_of_mem _ hx)]
  · rintro pre mid post rfl
    induction pre with
    | nil =>
      intro _ hmid
      have hm : (mid.title == t) = true := by simpa using hmid
      simp [updatePriceByTitle, hm]
    | cons q pre ih =>
      intro hpre hmid
      have hq : ¬(q.title == t) = true := by
        simpa using hpre q (List.mem_cons_self q pre)
      simp [updatePriceByTitle, hq,
        ih (fun x hx => hpre x (List.mem_cons_of_mem _ hx)) hmid]

/-- C1 witness: updating a missing title returns the collection
unchanged with an empty result; updating "The Silent Orchard" to 12.49
returns that record's post-update state. -/
theorem updatePriceByTitle_spec_witness :
    updatePriceByTitle sampleBooks "Nonexistent Title" 1 = (sampleBooks, none) ∧
    (updatePriceByTitle sampleBooks "The Silent Orchard" 12.49).2 =
      some ⟨"The Silent Orchard", "Ava Harper", "Fiction", 2018, some 12.49, true, 320,
        "Harbor Press"⟩ := by
  constructor
  · exact (updatePriceByTitle_spec sampleBooks "Nonexistent Title" 1).2.1 (by decide)
  · have h := (updatePriceByTitle_spec sampleBooks "The Silent Orchard" 12.49).2.2 []
      ⟨"The Silent Orchard", "Ava Harper", "Fiction", 2018, some 14.99, true, 320,
        "Harbor Press"⟩
      sampleBooks.tail rfl (by simp) rfl
    exact congrArg Prod.snd h

/-- C2: the seeder inserts the 12 fixture records in one ordered
batch — ordered meaning insertion stops at the first rejected
document — so one run on an empty collection yields exactly the 12
fixture records, and a second run appends the same 12 again (24
records, every fixture title duplicated, no merging). -/
theorem seeder_spec :
    (∀ (ok : Book → Bool) (docs : List Book),
        insertManyOrdered ok docs = (docs.takeWhile ok, (docs.takeWhile ok).length)) ∧
    sampleBooks.length = 12 ∧
    seederRun [] = (sampleBooks, 12) ∧
    seederRun (seederRun []).1 = (sampleBooks ++ sampleBooks, 12) ∧
    (sampleBooks ++ sampleBooks).length = 24 ∧
    ((sampleBooks.map Book.title).all fun t =>
        decide (((sampleBooks ++ sampleBooks).countP fun b => decide (b.title = t)) = 2)) =
      true := by
  refine ⟨?_, rfl, rfl, rfl, rfl, rfl⟩
  intro ok docs
  induction docs with
  | nil => rfl
  | cons b bs ih =>
    by_cases h : ok b = true
    · simp [insertManyOrdered, List.takeWhile_cons, h, ih]
    · simp [insertManyOrdered, List.takeWhile_cons, h]

/-- C3: `findPublishedAfter` returns exactly the records whose
published year is strictly greater than the threshold, projected to
title and published year; on the fixture with threshold 2015 the
returned years are 2018, 2021, 2016, 2019, 2020, 2022 (all in
the set {2016, 2018, 2019, 2020, 2021, 2022}) and no record with
published year at most 2015 is returned. -/
theorem findPublishedAfter_spec :
    (∀ (col : List Book) (year : Nat) (x : TY),
        x ∈ findPublishedAfter col year ↔
          ∃ b ∈ col, year < b.published_year ∧ x = ⟨b.title, b.published_year⟩) ∧
    (findPublishedAfter sampleBooks 2015).map TY.published_year =
      [2018, 2021, 2016, 2019, 2020, 2022] ∧
    ((findPublishedAfter sampleBooks 2015).all fun x =>
        decide (x.published_year ∈ ([2016, 2018, 2019, 2020, 2021, 2022] : List Nat))) =
      true ∧
    ((sampleBooks.filter fun b => decide (b.published_year ≤ 2015)).all fun b =>
        decide ((⟨b.title, b.published_year⟩ : TY) ∉ findPublishedAfter sampleBooks 2015)) =
      true := by
  refine ⟨fun col year x => ?_, rfl, rfl, rfl⟩
  constructor
  · intro hx
    obtain ⟨b, hb, rfl⟩ := List.mem_map.mp hx
    obtain ⟨hbcol, hyear⟩ := List.mem_filter.mp hb
    exact ⟨b, hbcol, by simpa using hyear, rfl⟩
  · rintro ⟨b, hbcol, hyear, rfl⟩
    exact List.mem_map.mpr ⟨b, List.mem_filter.mpr ⟨hbcol, by simpa using hyear⟩, rfl⟩

/-- C10: `getPage` is only well-defined for page numbers at least 1:
for `N = 1` the computed skip is 0, and for `N ≤ 0` the computed skip
`(N - 1) * pageSize` is negative, so the read fails with the driver's
negative-skip error instead of returning an empty or clamped page —
no precondition check guards the page number. -/
theorem getPage_guard (col : List Book) (N : Int) (h : N ≤ 0) :
    (N - 1) * ((pageSize : Nat) : Int) < 0 ∧
    getPage col N = Except.error "Skip value must be non-negative" ∧
    getPage col 1 = Except.ok
      (((col.insertionSort titleAsc).take pageSize).map fun b => ⟨b.title, b.author⟩) := by
  have h5 : ((pageSize : Nat) : Int) = 5 := rfl
  have hneg : (N - 1) * ((pageSize : Nat) : Int) < 0 := by rw [h5]; omega
  refine ⟨hneg, ?_, ?_⟩
  · simp only [getPage]
    rw [if_pos hneg]
  · simp only [getPage]
    norm_num

/-- C10 witness: page number 0 is rejected with the negative-skip
error. -/
theorem getPage_guard_witness :
    getPage sampleBooks 0 = Except.error "Skip value must be non-negative" :=
  (getPage_guard sampleBooks 0 (by decide)).2.1

/-- C4: for every page number `N ≥ 1` the paginated title-sorted scan
returns the records at offsets `(N-1)*5` through `(N-1)*5+4` of the
title-sorted collection, projected to title and author; on the
fixture, pages 1 and 2 are disjoint and their concatenation is
exactly the ten alphabetically first titles. -/
theorem getPage_spec (col : List Book) (N : Int) (hN : 1 ≤ N) :
    getPage col N = Except.ok
      ((((col.insertionSort titleAsc).drop ((N - 1).toNat * pageSize)).take pageSize).map
        fun b => ⟨b.title, b.author⟩) ∧
    getPage sampleBooks 1 = Except.ok
      [⟨"A Short History of Timekeeping", "Nina Patel"⟩,
       ⟨"Data Patterns in the Wild", "Samuel Reed"⟩,
       ⟨"Echoes of Tomorrow", "Maya Chen"⟩,
       ⟨"Galaxies Apart", "Maya Chen"⟩,
       ⟨"Learning MongoDB", "Samuel Reed"⟩] ∧
    getPage sampleBooks 2 = Except.ok
      [⟨"Memoirs of a Voyager", "Isabella Stone"⟩,
       ⟨"Mysteries of Grey Manor", "Derek Cole"⟩,
       ⟨"Practical Indexing", "Samuel Reed"⟩,
       ⟨"Romance on 5th Avenue", "Liam Brooks"⟩,
       ⟨"Shadows Under the Ivy", "Derek Cole"⟩] ∧
    (([⟨"A Short History of Timekeeping", "Nina Patel"⟩,
       ⟨"Data Patterns in the Wild", "Samuel Reed"⟩,
       ⟨"Echoes of Tomorrow", "Maya Chen"⟩,
       ⟨"Galaxies Apart", "Maya Chen"⟩,
       ⟨"Learning MongoDB", "Samuel Reed"⟩] : List TA).all fun x =>
      decide (x ∉ ([⟨"Memoirs of a Voyager", "Isabella Stone"⟩,
       ⟨"Mysteries of Grey Manor", "Derek Cole"⟩,
       ⟨"Practical Indexing", "Samuel Reed"⟩,
       ⟨"Romance on 5th Avenue", "Liam Brooks"⟩,
       ⟨"Shadows Under the Ivy", "Derek Cole"⟩] : List TA))) = true ∧
    (([⟨"A Short History of Timekeeping", "Nina Patel"⟩,
       ⟨"Data Patterns in the Wild", "Samuel Reed"⟩,
       ⟨"Echoes of Tomorrow", "Maya Chen"⟩,
       ⟨"Galaxies Apart", "Maya Chen"⟩,
       ⟨"Learning MongoDB", "Samuel Reed"⟩] : List TA) ++
      ([⟨"Memoirs of a Voyager", "Isabella Stone"⟩,
       ⟨"Mysteries of Grey Manor", "Derek Cole"⟩,
       ⟨"Practical Indexing", "Samuel Reed"⟩,
       ⟨"Romance on 5th Avenue", "Liam Brooks"⟩,
       ⟨"Shadows Under the Ivy", "Derek Cole"⟩] : List TA)).map TA.title =
      ((sampleBooks.insertionSort titleAsc).map Book.title).take 10 := by
  have h5 : ((pageSize : Nat) : Int) = 5 := rfl
  have hpos : ¬(N - 1) * ((pageSize : Nat) : Int) < 0 := by rw [h5]; omega
  have key : ((N - 1) * ((pageSize : Nat) : Int)).toNat = (N - 1).toNat * pageSize := by
    rw [h5]
    show _ = (N - 1).toNat * 5
    omega
  refine ⟨?_, rfl, rfl, rfl, rfl⟩
  simp only [getPage]
  rw [if_neg hpos, key]

/-- C4 witness: page 1 of the fixture is the first five projected
records of the title-sorted collection. -/
theorem getPage_spec_witness :
    getPage sampleBooks 1 = Except.ok
      ((((sampleBooks.insertionSort titleAsc).drop
          (((1 : Int) - 1).toNat * pageSize)).take pageSize).map
        fun b => ⟨b.title, b.author⟩) :=
  (getPage_spec sampleBooks 1 (by decide)).1

/-- C8: the two unrestricted price-sorted scans each return all
records projected to title and price (the output is a permutation of
the projected collection), the first is sorted ascending and the
second descending by price, and both sorts are stable: the records
with any given price value appear in their original collection
order. -/
theorem sortByPrice_spec (col : List Book) :
    (sortByPriceAsc col).Perm (col.map fun b => (⟨b.title, b.price⟩ : TP)) ∧
    (sortByPriceDesc col).Perm (col.map fun b => (⟨b.title, b.price⟩ : TP)) ∧
    (sortByPriceAsc col).Pairwise (fun x y => priceLE x.price y.price = true) ∧
    (sortByPriceDesc col).Pairwise (fun x y => priceLE y.price x.price = true) ∧
    ∀ q : Option ℚ,
      ((sortByPriceAsc col).filter fun x => decide (x.price = q)) =
        ((col.map fun b => (⟨b.title, b.price⟩ : TP)).filter fun x => decide (x.price = q)) ∧
      ((sortByPriceDesc col).filter fun x => decide (x.price = q)) =
        ((col.map fun b => (⟨b.title, b.price⟩ : TP)).filter fun x =>
          decide (x.price = q)) := by
  refine ⟨?_, ?_, ?_, ?_, ?_⟩
  · exact (List.perm_insertionSort priceAsc col).map _
  · exact (List.perm_insertionSort priceDesc col).map _
  · rw [sortByPriceAsc]
    exact List.Pairwise.map _ (fun a b h => h) (List.sorted_insertionSort priceAsc col)
  · rw [sortByPriceDesc]
    exact List.Pairwise.map _ (fun a b h => h) (List.sorted_insertionSort priceDesc col)
  · intro q
    have hpA : ∀ x y : Book, decide (x.price = q) = true → decide (y.price = q) = true →
        priceAsc x y := by
      intro x y hx hy
      have hx' : x.price = q := by simpa using hx
      have hy' : y.price = q := by simpa using hy
      show priceLE x.price y.price = true
      rw [hx', hy']
      exact priceLE_refl q
    have hpD : ∀ x y : Book, decide (x.price = q) = true → decide (y.price = q) = true →
        priceDesc x y := by
      intro x y hx hy
      have hx' : x.price = q := by simpa using hx
      have hy' : y.price = q := by simpa using hy
      show priceLE y.price x.price = true
      rw [hx', hy']
      exact priceLE_refl q
    constructor
    · rw [sortByPriceAsc, List.filter_map, List.filter_map]
      exact congrArg _ (filter_insertionSort priceAsc _ hpA col)
    · rw [sortByPriceDesc, List.filter_map, List.filter_map]
      exact congrArg _ (filter_insertionSort priceDesc _ hpD col)

/-- C5: the decade pipeline derives `floor(published_year / 10) * 10`
per record, groups records by that value with a count and the list of
titles per group, and outputs the groups sorted by decade ascending;
every record falls in exactly one decade group and the per-group
counts sum to the total record count. -/
theorem byDecade_spec (col : List Book) :
    (∀ b : Book, decadeOf b = b.published_year / 10 * 10) ∧
    ((byDecade col).map DecadeGroup.count).sum = col.length ∧
    (byDecade col).Pairwise decadeAsc ∧
    (∀ g ∈ byDecade col,
        g.count = (col.countP fun b => decide (decadeOf b = g._id)) ∧
        g.titles = (col.filter fun b => decide (decadeOf b = g._id)).map Book.title ∧
        g._id ∈ col.map decadeOf) ∧
    (∀ b ∈ col, ((byDecade col).countP fun g => decide (g._id = decadeOf b)) = 1) := by
  refine ⟨fun _ => rfl, ?_, List.sorted_insertionSort decadeAsc _, ?_, ?_⟩
  · calc ((byDecade col).map DecadeGroup.count).sum
        = ((decadeGroups col).map DecadeGroup.count).sum :=
          ((List.perm_insertionSort decadeAsc _).map _).sum_eq
      _ = ((firstSeenKeys (col.map decadeOf)).map fun d =>
            (col.map decadeOf).countP fun x => decide (x = d)).sum := by
          rw [decadeGroups, List.map_map]
          refine congrArg _ (List.map_congr_left fun d _ => ?_)
          rw [List.countP_map]
          rfl
      _ = (col.map decadeOf).length :=
          sum_countP_keys _ _ (nodup_firstSeenKeys _) fun k hk => mem_firstSeenKeys.mpr hk
      _ = col.length := List.length_map _ _
  · intro g hg
    rw [byDecade, List.mem_insertionSort] at hg
    obtain ⟨d, hd, rfl⟩ := List.mem_map.mp hg
    exact ⟨rfl, rfl, mem_firstSeenKeys.mp hd⟩
  · intro b hb
    have hperm : (byDecade col).Perm (decadeGroups col) := List.perm_insertionSort decadeAsc _
    rw [hperm.countP_eq, decadeGroups, List.countP_map]
    have hmem : decadeOf b ∈ firstSeenKeys (col.map decadeOf) :=
      mem_firstSeenKeys.mpr (List.mem_map_of_mem decadeOf hb)
    exact countP_decide_eq_one_of_nodup (nodup_firstSeenKeys _) hmem

/-- C5 witness: on the fixture the per-group counts sum to 12, and
the first fixture record (published 2018) falls in exactly one decade
group. -/
theorem byDecade_spec_witness :
    ((byDecade sampleBooks).map DecadeGroup.count).sum = sampleBooks.length ∧
    ((byDecade sampleBooks).countP fun g =>
        decide (g._id = decadeOf ⟨"The Silent Orchard", "Ava Harper", "Fiction", 2018,
          some 14.99, true, 320, "Harbor Press"⟩)) = 1 :=
  ⟨(byDecade_spec sampleBooks).2.1,
   (byDecade_spec sampleBooks).2.2.2.2 _ (List.mem_cons_self _ _)⟩

/-- C6: the average-price pipeline groups all records by genre,
computes for every group the count of records and the arithmetic
mean of the price values that are present — a record with a missing
price field is excluded from the average, not counted as zero — and
outputs the groups sorted by mean price descending. -/
theorem avgPriceByGenre_spec (col : List Book) :
    (∀ l : List (Option ℚ), mongoAvg (none :: l) = mongoAvg l) ∧
    (∀ v : List ℚ, v ≠ [] → mongoAvg (v.map some) = some (v.sum / v.length)) ∧
    (avgPriceByGenre col).Pairwise avgDesc ∧
    (∀ g ∈ avgPriceByGenre col,
        g.count = (col.countP fun b => decide (b.genre = g._id)) ∧
        g.averagePrice =
          mongoAvg ((col.filter fun b => decide (b.genre = g._id)).map Book.price) ∧
        g._id ∈ col.map Book.genre) ∧
    (∀ s ∈ col.map Book.genre,
        ((avgPriceByGenre col).countP fun g => decide (g._id = s)) = 1) := by
  refine ⟨?_, ?_, List.sorted_insertionSort avgDesc _, ?_, ?_⟩
  · intro l
    simp [mongoAvg]
  · intro v hv
    have h1 : (v.map some).filterMap id = v := by simp
    cases v with
    | nil => exact absurd rfl hv
    | cons a t => simp [mongoAvg, h1]
  · intro g hg
    rw [avgPriceByGenre, List.mem_insertionSort] at hg
    obtain ⟨s, hs, rfl⟩ := List.mem_map.mp hg
    exact ⟨rfl, rfl, mem_firstSeenKeys.mp hs⟩
  · intro s hs
    have hperm : (avgPriceByGenre col).Perm (genreGroups col) :=
      List.perm_insertionSort avgDesc _
    rw [hperm.countP_eq, genreGroups, List.countP_map]
    exact countP_decide_eq_one_of_nodup (nodup_firstSeenKeys _) (mem_firstSeenKeys.mpr hs)

unseal Rat.mul Rat.add Rat.inv Rat.ofScientific in
/-- C6 witness: a missing price is dropped from the average — the
mean of 2, a missing value and 4 is 3, not 2 — and on the fixture the
genre Fiction has exactly one output group. -/
theorem avgPriceByGenre_spec_witness :
    mongoAvg (none :: [some 2, some 4]) = mongoAvg [some 2, some 4] ∧
    mongoAvg [some (2 : ℚ), some 4] = some 3 ∧
    mongoAvg ([(2 : ℚ), 4].map some) = some (([(2 : ℚ), 4].sum) / ([(2 : ℚ), 4].length)) ∧
    ((avgPriceByGenre sampleBooks).countP fun g => decide (g._id = "Fiction")) = 1 := by
  refine ⟨(avgPriceByGenre_spec []).1 [some 2, some 4], by decide,
    (avgPriceByGenre_spec []).2.1 [2, 4] (by decide),
    (avgPriceByGenre_spec sampleBooks).2.2.2.2 "Fiction" (by decide)⟩

/-- C7: the top-author pipeline groups records by author with a count
per group and returns exactly one group, one with the maximum count;
ties are broken in favour of the group whose author key is seen first
in grouping order. -/
theorem topAuthor_spec (col : List Book) (hne : col ≠ []) :
    ∃ g, topAuthor col = [g] ∧
      g.count = (col.countP fun b => decide (b.author = g._id)) ∧
      (∀ a : String, (col.countP fun b => decide (b.author = a)) ≤ g.count) ∧
      (firstSeenKeys (col.map Book.author)).find?
          (fun a => decide ((col.countP fun b => decide (b.author = a)) = g.count)) =
        some g._id := by
  obtain ⟨b₀, t₀, rfl⟩ := List.exists_cons_of_ne_nil hne
  have hkey : b₀.author ∈ firstSeenKeys ((b₀ :: t₀).map Book.author) :=
    mem_firstSeenKeys.mpr (List.mem_map_of_mem Book.author (List.mem_cons_self b₀ t₀))
  have hgne : authorGroups (b₀ :: t₀) ≠ [] := by
    rw [authorGroups]
    intro hmap
    rw [List.map_eq_nil_iff] at hmap
    rw [hmap] at hkey
    exact List.not_mem_nil _ hkey
  have hsne : (authorGroups (b₀ :: t₀)).insertionSort countDesc ≠ [] := by
    intro hempty
    apply hgne
    have := List.length_insertionSort countDesc (authorGroups (b₀ :: t₀))
    rw [hempty] at this
    exact List.length_eq_zero.mp this.symm
  obtain ⟨g, tg, hsorted⟩ := List.exists_cons_of_ne_nil hsne
  have hgmem : g ∈ authorGroups (b₀ :: t₀) := by
    rw [← List.mem_insertionSort countDesc (l := authorGroups (b₀ :: t₀)), hsorted]
    exact List.mem_cons_self g tg
  obtain ⟨a₀, ha₀, hga⟩ := List.mem_map.mp hgmem
  have hpw : (g :: tg).Pairwise countDesc := by
    rw [← hsorted]
    exact List.sorted_insertionSort countDesc _
  have hmax : ∀ a : String,
      ((b₀ :: t₀).countP fun b => decide (b.author = a)) ≤ g.count := by
    intro a
    by_cases ha : a ∈ (b₀ :: t₀).map Book.author
    · have hmk : (⟨a, (b₀ :: t₀).countP fun b => decide (b.author = a)⟩ : AuthorGroup) ∈
          authorGroups (b₀ :: t₀) :=
        List.mem_map_of_mem _ (mem_firstSeenKeys.mpr ha)
      have hmk2 : (⟨a, (b₀ :: t₀).countP fun b => decide (b.author = a)⟩ : AuthorGroup) ∈
          g :: tg := by
        rw [← hsorted]
        exact (List.mem_insertionSort countDesc).mpr hmk
      rcases List.mem_cons.mp hmk2 with heq | hmem
      · exact le_of_eq (congrArg AuthorGroup.count heq)
      · exact (List.pairwise_cons.mp hpw).1 _ hmem
    · have h0 : ((b₀ :: t₀).countP fun b => decide (b.author = a)) = 0 :=
        List.countP_eq_zero.mpr fun b hb => by
          simp only [decide_eq_true_eq]
          intro hba
          exact ha (hba ▸ List.mem_map_of_mem Book.author hb)
      rw [h0]
      exact Nat.zero_le _
  refine ⟨g, ?_, ?_, hmax, ?_⟩
  · rw [topAuthor, hsorted]
    rfl
  · rw [← hga]
  · have hstable : ((authorGroups (b₀ :: t₀)).insertionSort countDesc).filter
        (fun x => decide (x.count = g.count)) =
        (authorGroups (b₀ :: t₀)).filter (fun x => decide (x.count = g.count)) := by
      refine filter_insertionSort countDesc _ ?_ _
      intro x y hx hy
      have hx' : x.count = g.count := by simpa using hx
      have hy' : y.count = g.count := by simpa using hy
      show y.count ≤ x.count
      rw [hx', hy']
    have hhead : (((authorGroups (b₀ :: t₀)).insertionSort countDesc).filter
        (fun x => decide (x.count = g.count))).head? = some g := by
      rw [hsorted, List.filter_cons, if_pos (by simp)]
      rfl
    rw [hstable] at hhead
    rw [authorGroups, List.filter_map, List.head?_map] at hhead
    rw [find?_eq_head?_filter]
    cases hh : (((firstSeenKeys ((b₀ :: t₀).map Book.author)).filter
        ((fun x : AuthorGroup => decide (x.count = g.count)) ∘ fun a =>
          ⟨a, (b₀ :: t₀).countP fun b => decide (b.author = a)⟩)).head?) with
    | none =>
      rw [hh] at hhead
      exact absurd hhead (by simp)
    | some a₁ =>
      rw [hh] at hhead
      have ha₁ : (⟨a₁, (b₀ :: t₀).countP fun b => decide (b.author = a₁)⟩ : AuthorGroup) =
          g := by simpa using hhead
      have hid : g._id = a₁ := (congrArg AuthorGroup._id ha₁).symm
      rw [hid]
      exact hh

/-- C7 witness: on the fixture the pipeline returns exactly one
group, with the maximal count among all authors, first-seen on
ties. -/
theorem topAuthor_spec_witness :
    ∃ g, topAuthor sampleBooks = [g] ∧
      g.count = (sampleBooks.countP fun b => decide (b.author = g._id)) ∧
      (∀ a : String, (sampleBooks.countP fun b => decide (b.author = a)) ≤ g.count) ∧
      (firstSeenKeys (sampleBooks.map Book.author)).find?
          (fun a => decide ((sampleBooks.countP fun b => decide (b.author = a)) = g.count)) =
        some g._id :=
  topAuthor_spec sampleBooks (List.cons_ne_nil _ _)

/-- C9: on every exit path of either script — success, connection
failure, or an operation failure — the connection is closed exactly
once, the close is the final action before the process ends, and any
failure is logged to the console before termination. -/
theorem connection_release_spec (connectOk opsOk insertOk : Bool) :
    ((runTrace connectOk opsOk).count Event.connectionClosed = 1 ∧
     (runTrace connectOk opsOk).getLast? = some Event.connectionClosed ∧
     (connectOk = false ∨ opsOk = false → Event.errorLogged ∈ runTrace connectOk opsOk)) ∧
    ((mainTrace connectOk insertOk).count Event.connectionClosed = 1 ∧
     (mainTrace connectOk insertOk).getLast? = some Event.connectionClosed ∧
     (connectOk = false ∨ insertOk = false →
        Event.errorLogged ∈ mainTrace connectOk insertOk)) := by
  cases connectOk <;> cases opsOk <;> cases insertOk <;> decide

/-- C9 witness: when the connection fails, the error is logged and
the connection is still released exactly once. -/
theorem connection_release_spec_witness :
    Event.errorLogged ∈ runTrace false true ∧
    (runTrace false true).count Event.connectionClosed = 1 ∧
    Event.errorLogged ∈ mainTrace false false ∧
    (mainTrace false false).count Event.connectionClosed = 1 :=
  ⟨((connection_release_spec false true true).1).2.2 (Or.inl rfl),
   ((connection_release_spec false true true).1).1,
   ((connection_release_spec false true false).2).2.2 (Or.inr rfl),
   ((connection_release_spec false true false).2).1⟩

end PlpBookstore
